import Mathlib

/-!
Verification of the document retrieval engine of the advo-chat repository
(`src/utils/rag.ts`, `src/utils/embeddings.ts`).

Shallow embedding conventions:
* JavaScript strings are modelled as `List Char` (or Lean `String` where the
  source only uses whole-string operations); `charCodeAt` is modelled by
  `Char.toNat`, which agrees with UTF-16 code units on the Basic Multilingual
  Plane (all concrete inputs below are ASCII).
* JavaScript numbers holding integer quantities (indices, sizes) are modelled
  as `ℤ`; embedding-vector components are modelled as `ℝ`.  The single
  fractional constant in the sources, the sentence-boundary threshold
  `start + chunkSize * 0.7`, is modelled exactly as the rational comparison
  `10 * lastBreak > 10 * start + 7 * chunkSize` (IEEE double rounding of
  `chunkSize * 0.7` can differ from the exact rational by less than `1e-12`,
  which does not affect any comparison used in a theorem below).
* The 32-bit wrap-around of `(a << 5) - a + c` followed by `a & a` is modelled
  by explicit reduction modulo `2 ^ 32` into `[-2^31, 2^31)`.
* The `while` loop of `chunkText` is modelled with explicit fuel: the loop
  body is a step function and `chunkText fuel` returns `none` when `fuel`
  iterations did not reach the exit condition, so `(∀ fuel, ... = none)`
  expresses non-termination of the source loop.
* Promise-returning functions that can reject are modelled with `Except`;
  a `try/catch` that converts a rejection into a normal value is modelled by
  matching on the `Except` argument.
-/

set_option maxRecDepth 8000

namespace AdvoChat

/-! ### JavaScript string primitives -/

/-- Model of `String.prototype.slice(s, e)` on a character list: negative indices count
from the end, indices are clamped to `[0, length]`, and an empty list results
when the effective start is not before the effective end. -/
def jsSlice (l : List Char) (s e : ℤ) : List Char :=
  let n : ℤ := l.length
  let s' : ℤ := if s < 0 then max (n + s) 0 else min s n
  let e' : ℤ := if e < 0 then max (n + e) 0 else min e n
  (l.take e'.toNat).drop s'.toNat

/-- Model of `String.prototype.lastIndexOf(c)`: index of the last occurrence of `c`,
`-1` when absent. -/
def lastIndexOf (l : List Char) (c : Char) : ℤ :=
  match l with
  | [] => -1
  | a :: rest =>
    let r := lastIndexOf rest c
    if 0 ≤ r then r + 1 else if a = c then 0 else -1

/-- Model of `String.prototype.trim()`: strip whitespace from both ends. -/
def jsTrim (l : List Char) : List Char :=
  ((l.dropWhile Char.isWhitespace).reverse.dropWhile Char.isWhitespace).reverse

/-! ### `chunkText` (src/utils/rag.ts lines 29-54) -/

/-- Index of the last sentence-terminal character of a window:
`Math.max(chunk.lastIndexOf('.'), chunk.lastIndexOf('?'), chunk.lastIndexOf('!'))`. -/
def lastBreak (chunk : List Char) : ℤ :=
  max (lastIndexOf chunk '.') (max (lastIndexOf chunk '?') (lastIndexOf chunk '!'))

/-- One iteration of the `chunkText` loop body, before `trim`: the raw window
`text.slice(start, end)` with `end = min(start + chunkSize, text.length)`,
truncated to `chunk.slice(0, lastBreak + 1)` when the window ends strictly
before the end of the text and `lastBreak > start + chunkSize * 0.7`
(note: `lastBreak` is an index *relative to the window* while the right-hand
side is an *absolute* position — modelled exactly as in the source). -/
def chunkWindowRaw (text : List Char) (chunkSize start : ℤ) : List Char :=
  jsSlice text start (min (start + chunkSize) text.length)

def chunkWindow (text : List Char) (chunkSize start : ℤ) : List Char :=
  let chunk := chunkWindowRaw text chunkSize start
  if min (start + chunkSize) (text.length : ℤ) < (text.length : ℤ) then
    let lb := lastBreak chunk
    if 10 * lb > 10 * start + 7 * chunkSize then jsSlice chunk 0 (lb + 1) else chunk
  else chunk

/-- The `while (start < text.length)` loop of `chunkText`, with fuel.
Returns `none` when the fuel is exhausted before the loop exits. -/
def chunkLoop (text : List Char) (chunkSize overlap : ℤ) : ℕ → ℤ → Option (List (List Char))
  | 0, _ => none
  | fuel + 1, start =>
    if start < (text.length : ℤ) then
      let e : ℤ := min (start + chunkSize) text.length
      let piece := jsTrim (chunkWindow text chunkSize start)
      match chunkLoop text chunkSize overlap fuel (e - overlap) with
      | none => none
      | some rest => some (piece :: rest)
    else some []

/-- Model of `chunkText(text, chunkSize = 1000, overlap = 200)`: run the window loop
from `start = 0`, then `chunks.filter(chunk => chunk.length > 50)`.
`none` means the loop did not terminate within `fuel` iterations. -/
def chunkText (text : List Char) (chunkSize overlap : ℤ) (fuel : ℕ) :
    Option (List (List Char)) :=
  (chunkLoop text chunkSize overlap fuel 0).map
    (fun chunks => chunks.filter (fun c => 50 < c.length))

/-- The loop never exits once `start < text.length` and `0 < overlap`:
the next start is `min (start + chunkSize) text.length - overlap < text.length`. -/
theorem chunkLoop_eq_none (text : List Char) (chunkSize overlap : ℤ)
    (hov : 0 < overlap) :
    ∀ (fuel : ℕ) (start : ℤ), start < (text.length : ℤ) →
      chunkLoop text chunkSize overlap fuel start = none := by
  intro fuel
  induction fuel with
  | zero => intro start _; rfl
  | succ n ih =>
    intro start hstart
    have hnext : min (start + chunkSize) (text.length : ℤ) - overlap <
        (text.length : ℤ) := by
      have h1 : min (start + chunkSize) (text.length : ℤ) ≤ (text.length : ℤ) :=
        min_le_right _ _
      omega
    simp only [chunkLoop, if_pos hstart, ih _ hnext]

/-- Any call of `chunkText` on a non-empty text with positive overlap runs out
of fuel, whatever the fuel: the source loop diverges. -/
theorem chunkText_eq_none (text : List Char) (chunkSize overlap : ℤ)
    (hne : text ≠ []) (hov : 0 < overlap) (fuel : ℕ) :
    chunkText text chunkSize overlap fuel = none := by
  have hlen : (0 : ℤ) < text.length := by
    have : text.length ≠ 0 := fun h => hne (List.length_eq_zero.mp h)
    omega
  unfold chunkText
  rw [chunkLoop_eq_none text chunkSize overlap hov fuel 0 hlen]
  rfl

/-! ### `SimpleEmbeddings` (src/utils/embeddings.ts lines 291-312) -/

/-- Model of `String.prototype.split(/\s+/)` on a character list: split on maximal
whitespace runs.  An empty input yields `[""]`, and leading/trailing
whitespace yields empty tokens at the corresponding end, exactly as in
JavaScript. -/
def jsSplitWS (cs : List Char) : List (List Char) :=
  match cs with
  | [] => [[]]
  | c :: rest =>
    if c.isWhitespace then
      [] :: jsSplitWS (rest.dropWhile Char.isWhitespace)
    else
      match h : (c :: rest).dropWhile (fun d => !d.isWhitespace) with
      | [] => [(c :: rest).takeWhile (fun d => !d.isWhitespace)]
      | _ :: tail =>
        (c :: rest).takeWhile (fun d => !d.isWhitespace) ::
          jsSplitWS (tail.dropWhile Char.isWhitespace)
termination_by cs.length
decreasing_by
  · have h1 := (List.dropWhile_sublist (l := rest) Char.isWhitespace).length_le
    simp only [List.length_cons]
    omega
  · have h1 := (List.dropWhile_sublist (l := a :: rest)
      (fun d => !d.isWhitespace)).length_le
    rw [h] at h1
    have h2 := (List.dropWhile_sublist (l := tail) Char.isWhitespace).length_le
    simp only [List.length_cons] at h1 ⊢
    omega

/-- Reduce an integer into the signed 32-bit range `[-2^31, 2^31)`; models the
JavaScript `ToInt32` conversion performed by `<<` and `&`. -/
def toInt32 (n : ℤ) : ℤ := (n + 2 ^ 31) % 2 ^ 32 - 2 ^ 31

/-- One step of the rolling word hash:
`a = ((a << 5) - a) + b.charCodeAt(0); return a & a;`. -/
def hashStep (a : ℤ) (c : Char) : ℤ := toInt32 (toInt32 (a * 32) - a + c.toNat)

/-- Model of `word.split('').reduce((a, b) => { a = ((a << 5) - a) + b.charCodeAt(0); return a & a; }, 0)`. -/
def wordHash (w : List Char) : ℤ := w.foldl hashStep 0

/-- Model of `Math.abs(hash) % this.dimensions` with `dimensions = 384`. -/
def bucketOf (w : List Char) : ℕ := (wordHash w).natAbs % 384

/-- Model of `embedding[position] += 1` on the bucket array. -/
def bump (l : List ℕ) (i : ℕ) : List ℕ := l.set i (l.getD i 0 + 1)

/-- The bucket array built by `SimpleEmbeddings.generateEmbeddings` before
normalization: lower-case the text, split on whitespace, and increment one of
the 384 buckets per word. -/
def simpleBuckets (text : String) : List ℕ :=
  (jsSplitWS (text.toList.map Char.toLower)).foldl
    (fun acc w => bump acc (bucketOf w)) (List.replicate 384 0)

/-- Model of `embedding.reduce((sum, val) => sum + val * val, 0)`: the squared
Euclidean magnitude of the bucket array. -/
def magnitudeSq (text : String) : ℕ :=
  ((simpleBuckets text).map (fun v => v * v)).sum

/-- Model of `SimpleEmbeddings.generateEmbeddings`: the normalized bucket vector
`embedding.map(val => val / magnitude)` with
`magnitude = Math.sqrt(magnitudeSq)`. -/
noncomputable def SimpleEmbeddings.generateEmbeddings (text : String) : List ℝ :=
  (simpleBuckets text).map (fun v : ℕ => (v : ℝ) / Real.sqrt (magnitudeSq text))

/-- Squared Euclidean norm of a real vector. -/
def normSq (v : List ℝ) : ℝ := (v.map (fun x => x * x)).sum

/-! Basic facts about the bucket array. -/

theorem length_bump (l : List ℕ) (i : ℕ) : (bump l i).length = l.length := by
  simp [bump]

theorem sum_bump (l : List ℕ) (i : ℕ) (h : i < l.length) :
    (bump l i).sum = l.sum + 1 := by
  induction l generalizing i with
  | nil => simp at h
  | cons a t ih =>
    cases i with
    | zero => simp [bump, List.set]; omega
    | succ j =>
      have hj : j < t.length := by simpa using h
      have := ih j hj
      simp only [bump, List.set, List.getD_cons_succ, List.sum_cons] at this ⊢
      omega

theorem jsSplitWS_ne_nil (cs : List Char) : jsSplitWS cs ≠ [] := by
  unfold jsSplitWS
  match cs with
  | [] => simp
  | c :: rest =>
    by_cases hw : c.isWhitespace
    · simp [hw]
    · simp only [hw, Bool.false_eq_true, if_false]
      split <;> simp

theorem length_foldl_bump (ws : List (List Char)) (l : List ℕ) :
    (ws.foldl (fun acc w => bump acc (bucketOf w)) l).length = l.length := by
  induction ws generalizing l with
  | nil => rfl
  | cons w rest ih => simp [List.foldl_cons, ih, length_bump]

theorem length_simpleBuckets (text : String) : (simpleBuckets text).length = 384 := by
  unfold simpleBuckets
  rw [length_foldl_bump]
  exact List.length_replicate _ _

theorem sum_foldl_bump (ws : List (List Char)) (l : List ℕ) (hl : l.length = 384) :
    (ws.foldl (fun acc w => bump acc (bucketOf w)) l).sum = l.sum + ws.length := by
  induction ws generalizing l with
  | nil => simp
  | cons w rest ih =>
    have hb : bucketOf w < l.length := by
      rw [hl]; exact Nat.mod_lt _ (by norm_num)
    have hlen : (bump l (bucketOf w)).length = 384 := by rw [length_bump, hl]
    simp only [List.foldl_cons, List.length_cons, ih _ hlen, sum_bump l _ hb]
    omega

theorem sum_simpleBuckets_pos (text : String) : 1 ≤ (simpleBuckets text).sum := by
  unfold simpleBuckets
  rw [sum_foldl_bump _ _ (List.length_replicate _ _)]
  have h1 : 0 < (jsSplitWS (text.toList.map Char.toLower)).length :=
    List.length_pos.mpr (jsSplitWS_ne_nil (text.toList.map Char.toLower))
  have h2 : (List.replicate 384 (0 : ℕ)).sum = 0 := by
    rw [List.sum_replicate, smul_zero]
  omega

theorem magnitudeSq_pos (text : String) : 1 ≤ magnitudeSq text := by
  unfold magnitudeSq
  have hsum := sum_simpleBuckets_pos text
  generalize simpleBuckets text = l at hsum ⊢
  induction l with
  | nil => simp at hsum
  | cons a t ih =>
    simp only [List.sum_cons] at hsum
    by_cases ha : a = 0
    · subst ha
      simp only [List.map_cons, List.sum_cons, Nat.zero_mul, Nat.zero_add]
      exact ih (by omega)
    · have : 1 ≤ a * a := Nat.one_le_iff_ne_zero.mpr (Nat.mul_ne_zero ha ha)
      simp only [List.map_cons, List.sum_cons]
      omega

/-- Every vector returned by the hash-fallback provider has 384 components. -/
theorem length_generateEmbeddings (text : String) :
    (SimpleEmbeddings.generateEmbeddings text).length = 384 := by
  unfold SimpleEmbeddings.generateEmbeddings
  rw [List.length_map, length_simpleBuckets]

/-- Every vector returned by the hash-fallback provider is unit-normalized:
the squared Euclidean norm is exactly 1 (the magnitude is never zero). -/
theorem normSq_generateEmbeddings (text : String) :
    normSq (SimpleEmbeddings.generateEmbeddings text) = 1 := by
  unfold normSq SimpleEmbeddings.generateEmbeddings
  have hmag : (1 : ℕ) ≤ magnitudeSq text := magnitudeSq_pos text
  have hpos : (0 : ℝ) < (magnitudeSq text : ℝ) := by exact_mod_cast hmag
  have hsqrt : Real.sqrt (magnitudeSq text) ≠ 0 :=
    ne_of_gt (Real.sqrt_pos.mpr hpos)
  have hsq : Real.sqrt (magnitudeSq text) * Real.sqrt (magnitudeSq text)
      = (magnitudeSq text : ℝ) := Real.mul_self_sqrt (le_of_lt hpos)
  have hmap : ((simpleBuckets text).map
        (fun v : ℕ => ((v : ℝ) / Real.sqrt (magnitudeSq text)))).map (fun x => x * x)
      = (simpleBuckets text).map
        (fun v : ℕ => ((v : ℝ) * v) * ((magnitudeSq text : ℝ))⁻¹) := by
    rw [List.map_map]
    refine List.map_congr_left ?_
    intro a _
    simp only [Function.comp_apply]
    rw [div_mul_div_comm, hsq, div_eq_mul_inv]
  rw [hmap, List.sum_map_mul_right]
  have hcast : ((simpleBuckets text).map (fun v : ℕ => ((v : ℝ) * v))).sum
      = ((magnitudeSq text : ℕ) : ℝ) := by
    unfold magnitudeSq
    rw [Nat.cast_list_sum, List.map_map]
    refine congrArg List.sum (List.map_congr_left ?_)
    intro a _
    simp only [Function.comp_apply]
    push_cast
    ring
  rw [hcast]
  exact mul_inv_cancel₀ (ne_of_gt hpos)

/-! ### `EmbeddingsManager` (src/utils/embeddings.ts lines 314-357)

The manager owns an active provider and an in-memory cache
(`Map<string, number[]>`, modelled as an association list whose `lookup`
sees the most recent insertion first, matching `Map.set`/`Map.get`).
The provider is modelled as a function returning `Except Unit (List ℝ)`:
`.error` models a rejected `generateEmbeddings` promise. -/

structure EmbeddingsManager where
  provider : String → Except Unit (List ℝ)
  cache : List (String × List ℝ)

/-- The cache fingerprint `` `${text.substring(0, 100)}_${text.length}` ``. -/
def cacheKey (text : String) : String :=
  text.take 100 ++ "_" ++ toString text.length

/-- Model of `EmbeddingsManager.getEmbeddings(text, useCache = true)`: return the
cached vector on a hit; otherwise call the provider, cache a successful
result (when `useCache`), and on provider failure return the result of a
freshly constructed `SimpleEmbeddings` without touching provider or cache.
The returned pair is (result vector, manager state after the call). -/
noncomputable def EmbeddingsManager.getEmbeddings (m : EmbeddingsManager)
    (text : String) (useCache : Bool := true) : List ℝ × EmbeddingsManager :=
  match (if useCache then m.cache.lookup (cacheKey text) else none) with
  | some cached => (cached, m)
  | none =>
    match m.provider text with
    | .ok embeddings =>
      (embeddings,
        if useCache then { m with cache := (cacheKey text, embeddings) :: m.cache }
        else m)
    | .error _ => (SimpleEmbeddings.generateEmbeddings text, m)

/-! ### Similarity search (src/utils/rag.ts lines 56-134) -/

/-- Model of `calculateCosineSimilarity(vecA, vecB)`: `0` on mismatched lengths or a
zero norm, otherwise `dot / (sqrt(normA) * sqrt(normB))`. -/
noncomputable def calculateCosineSimilarity (vecA vecB : List ℝ) : ℝ :=
  if vecA.length ≠ vecB.length then 0
  else
    let dotProduct := ((vecA.zip vecB).map (fun p => p.1 * p.2)).sum
    let normA := (vecA.map (fun x => x * x)).sum
    let normB := (vecB.map (fun x => x * x)).sum
    if normA = 0 ∨ normB = 0 then 0
    else dotProduct / (Real.sqrt normA * Real.sqrt normB)

/-- A stored chunk record (`DocumentChunk` in src/db/index.ts): the
`embeddings` field is optional. -/
structure DocumentChunk where
  id : String
  documentId : String
  content : String
  embeddings : Option (List ℝ)
  chunkIndex : ℕ
  createdAt : ℕ

/-- The score `searchChunks` attaches to a stored chunk:
`chunk.embeddings ? calculateCosineSimilarity(queryEmbedding, chunk.embeddings) : 0`. -/
noncomputable def chunkSim (queryEmbedding : List ℝ) (chunk : DocumentChunk) : ℝ :=
  match chunk.embeddings with
  | some v => calculateCosineSimilarity queryEmbedding v
  | none => 0

/-- The ordering used by `.sort((a, b) => b.similarity - a.similarity)`:
`a` may precede `b` exactly when `b.similarity ≤ a.similarity`. -/
def simDesc (a b : DocumentChunk × ℝ) : Prop := b.2 ≤ a.2

noncomputable instance : DecidableRel simDesc :=
  fun a b => inferInstanceAs (Decidable (b.2 ≤ a.2))

instance : IsTotal (DocumentChunk × ℝ) simDesc := ⟨fun a b => le_total b.2 a.2⟩

instance : IsTrans (DocumentChunk × ℝ) simDesc :=
  ⟨fun _ _ _ hab hbc => le_trans hbc hab⟩

/-- The ranking core of `searchChunks(query, limit)` after the query has been
embedded and the chunk repository has been read: score every stored chunk
(scoring a chunk without `embeddings` as `0`), sort by descending similarity
(JavaScript `Array.prototype.sort` is stable, so the stable `insertionSort`
computes the same list), take the first `limit`, and strip the score. -/
noncomputable def searchChunks (queryEmbedding : List ℝ)
    (allChunks : List DocumentChunk) (limit : ℕ) : List DocumentChunk :=
  let chunksWithSimilarity :=
    allChunks.map (fun chunk => (chunk, chunkSim queryEmbedding chunk))
  ((chunksWithSimilarity.insertionSort simDesc).take limit).map Prod.fst

/-- Model of `searchChunks` with its `try { ... } catch { return []; }` wrapper: the
embedding step and the repository read are the two operations that can fail,
and any failure is caught and converted into the normal result `[]`. -/
noncomputable def searchChunksTry (embedResult : Except Unit (List ℝ))
    (repoResult : Except Unit (List DocumentChunk)) (limit : ℕ) :
    Except Unit (List DocumentChunk) :=
  match embedResult with
  | .error _ => .ok []
  | .ok queryEmbedding =>
    match repoResult with
    | .error _ => .ok []
    | .ok allChunks => .ok (searchChunks queryEmbedding allChunks limit)

/-! ### `processDocument` (src/utils/rag.ts lines 85-111) -/

/-- A user document (`UserDocument` in src/db/index.ts), reduced to the
fields `processDocument` reads. -/
structure UserDocument where
  id : String
  title : String
  content : String

/-- The per-chunk loop of `processDocument`: embed each chunk in order and
append the resulting record to the store; a failed embedding aborts the loop,
leaving the records added so far in the store, and is re-thrown (first
component `some e`).  `mkId i` models `crypto.randomUUID()` for the `i`-th
chunk. -/
def processChunksLoop (embed : String → Except Unit (List ℝ))
    (docId : String) (mkId : ℕ → String) :
    List String → ℕ → List DocumentChunk → Option Unit × List DocumentChunk
  | [], _, store => (none, store)
  | chunk :: rest, i, store =>
    match embed chunk with
    | .error e => (some e, store)
    | .ok embeddings =>
      processChunksLoop embed docId mkId rest (i + 1)
        (store ++ [⟨mkId i, docId, chunk, some embeddings, i, 0⟩])

/-- Model of `processDocument(document)`: chunk the content with the default
parameters, delete the document's existing chunks, then run the per-chunk
embed-and-store loop.  `none` means the call never returns (the chunking
loop ran out of fuel). -/
def processDocument (embed : String → Except Unit (List ℝ)) (mkId : ℕ → String)
    (fuel : ℕ) (doc : UserDocument) (store : List DocumentChunk) :
    Option (Option Unit × List DocumentChunk) :=
  match chunkText doc.content.toList 1000 200 fuel with
  | none => none
  | some chunks =>
    some (processChunksLoop embed doc.id mkId (chunks.map (fun c => String.mk c)) 0
      (store.filter (fun c => c.documentId != doc.id)))

/-! ### Facts about `lastIndexOf`, `lastBreak` and `jsSlice` -/

theorem lastIndexOf_cons (a : Char) (rest : List Char) (c : Char) :
    lastIndexOf (a :: rest) c =
      if 0 ≤ lastIndexOf rest c then lastIndexOf rest c + 1
      else if a = c then 0 else -1 := rfl

theorem lastIndexOf_get (l : List Char) (c : Char) (h : 0 ≤ lastIndexOf l c) :
    l.get? (lastIndexOf l c).toNat = some c := by
  induction l with
  | nil => simp [lastIndexOf] at h
  | cons a rest ih =>
    by_cases hr : 0 ≤ lastIndexOf rest c
    · rw [lastIndexOf_cons, if_pos hr]
      have ht : (lastIndexOf rest c + 1).toNat = (lastIndexOf rest c).toNat + 1 := by
        omega
      rw [ht]
      simpa using ih hr
    · by_cases hac : a = c
      · rw [lastIndexOf_cons, if_neg hr, if_pos hac]
        simp [hac]
      · rw [lastIndexOf_cons, if_neg hr, if_neg hac] at h
        omega

theorem lastBreak_get (l : List Char) (h : 0 ≤ lastBreak l) :
    ∃ ch, l.get? (lastBreak l).toNat = some ch
      ∧ (ch = '.' ∨ ch = '?' ∨ ch = '!') := by
  unfold lastBreak at h ⊢
  rcases max_choice (lastIndexOf l '.')
      (max (lastIndexOf l '?') (lastIndexOf l '!')) with h1 | h1
  · rw [h1] at h ⊢
    exact ⟨'.', lastIndexOf_get l '.' h, Or.inl rfl⟩
  · rw [h1] at h ⊢
    rcases max_choice (lastIndexOf l '?') (lastIndexOf l '!') with h2 | h2
    · rw [h2] at h ⊢
      exact ⟨'?', lastIndexOf_get l '?' h, Or.inr (Or.inl rfl)⟩
    · rw [h2] at h ⊢
      exact ⟨'!', lastIndexOf_get l '!' h, Or.inr (Or.inr rfl)⟩

theorem jsSlice_zero (l : List Char) (e : ℤ) (he : 0 ≤ e) :
    jsSlice l 0 e = l.take e.toNat := by
  simp only [jsSlice]
  rw [if_neg (by omega : ¬ ((0:ℤ) < 0)), if_neg (not_lt.mpr he)]
  rw [min_eq_left (by positivity : (0:ℤ) ≤ (l.length : ℤ))]
  simp only [Int.toNat_zero, List.drop_zero]
  rcases le_or_lt e (l.length : ℤ) with hle | hlt
  · rw [min_eq_left hle]
  · rw [min_eq_right (le_of_lt hlt)]
    have h1 : ((l.length : ℤ)).toNat = l.length := Int.toNat_natCast _
    have h2 : l.length ≤ e.toNat := by omega
    rw [h1, List.take_length, List.take_of_length_le h2]

/-! ### Claims C1, C5, C7: non-termination of the chunking loop -/

/-- Claim C1: the claim asserts termination for every non-empty text and every
configuration with `0 < overlap < chunk_size`; in fact the loop never
terminates on any non-empty text with positive overlap, because
`start = min(start + chunkSize, length) - overlap` always stays strictly
below `length`. -/
theorem chunkText_diverges (text : List Char) (chunkSize overlap : ℤ) (fuel : ℕ)
    (hne : text ≠ []) (hov : 0 < overlap) (hlt : overlap < chunkSize) :
    chunkText text chunkSize overlap fuel = none :=
  chunkText_eq_none text chunkSize overlap hne hov fuel

theorem chunkText_diverges_witness :
    ((['a'] : List Char) ≠ [] ∧ (0:ℤ) < 1 ∧ (1:ℤ) < 2)
    ∧ chunkText ['a'] 2 1 5 = none :=
  ⟨⟨by decide, by decide, by decide⟩,
    chunkText_diverges ['a'] 2 1 5 (by decide) (by decide) (by decide)⟩

/-- Claim C5: with `chunk_size = 1000, overlap = 200` and a non-empty text
without sentence terminals, `chunkText` produces no chunk list at all (for
any amount of fuel), so no finite list of strictly increasing windows
covering `[0, L)` is ever returned. -/
theorem chunkText_default_config_diverges (text : List Char) (fuel : ℕ)
    (hne : text ≠ [])
    (hterm : ∀ c ∈ text, c ≠ '.' ∧ c ≠ '?' ∧ c ≠ '!') :
    chunkText text 1000 200 fuel = none :=
  chunkText_eq_none text 1000 200 hne (by norm_num) fuel

theorem chunkText_default_config_diverges_witness :
    (List.replicate 100 'a' ≠ ([] : List Char)
      ∧ ∀ c ∈ List.replicate 100 'a', c ≠ '.' ∧ c ≠ '?' ∧ c ≠ '!')
    ∧ chunkText (List.replicate 100 'a') 1000 200 7 = none :=
  ⟨⟨by decide, by decide⟩,
    chunkText_default_config_diverges (List.replicate 100 'a') 7
      (by decide) (by decide)⟩

/-- Claim C7: `processDocument` cannot exhibit the claimed all-or-nothing or
index-reporting failure behavior because it never reaches the embed-and-store
loop: for every document with non-empty content, the initial `chunkText` call
loops forever, so `processDocument` never returns at all. -/
theorem processDocument_never_returns (embed : String → Except Unit (List ℝ))
    (mkId : ℕ → String) (fuel : ℕ) (store : List DocumentChunk)
    (doc : UserDocument) (hne : doc.content ≠ "") :
    processDocument embed mkId fuel doc store = none := by
  have hlist : doc.content.toList ≠ [] := fun h => hne (String.ext h)
  unfold processDocument
  rw [chunkText_eq_none doc.content.toList 1000 200 hlist (by norm_num) fuel]

theorem processDocument_never_returns_witness :
    ((UserDocument.mk "doc1" "title" "x").content ≠ "")
    ∧ processDocument (fun _ => Except.ok []) (fun _ => "id") 3
        (UserDocument.mk "doc1" "title" "x") [] = none :=
  ⟨by decide,
    processDocument_never_returns (fun _ => Except.ok []) (fun _ => "id") 3 []
      (UserDocument.mk "doc1" "title" "x") (by decide)⟩

/-! ### Claim C4: the sentence-boundary truncation rule -/

/-- Claim C4 formalized exactly as stated, for the window of `chunkText`
starting at `start`: the chunk is the truncated window
`chunk.slice(0, lastBreak + 1)` if and only if the last sentence-terminal
character exists and its *absolute* position `start + lastBreak` is no
earlier than `start + 0.7 * chunk_size` (the threshold comparison is stated
over `ℚ`-exact integers: `x ≥ start + 0.7 * size ↔ 10 * x ≥ 10 * start + 7 * size`). -/
def specTruncationIff (text : List Char) (chunkSize start : ℤ) : Prop :=
  chunkWindow text chunkSize start
      = jsSlice (chunkWindowRaw text chunkSize start) 0
          (lastBreak (chunkWindowRaw text chunkSize start) + 1)
    ↔ (0 ≤ lastBreak (chunkWindowRaw text chunkSize start)
        ∧ 10 * (start + lastBreak (chunkWindowRaw text chunkSize start))
            ≥ 10 * start + 7 * chunkSize)

instance (text : List Char) (chunkSize start : ℤ) :
    Decidable (specTruncationIff text chunkSize start) := by
  unfold specTruncationIff
  infer_instance

/-- The 19-character text `aaaaaaaaaaaaa.aaaaa` (thirteen `a`, one `.`, five
`a`): its second `chunkText` window with `chunk_size = 10, overlap = 5` is
`text.slice(5, 15) = "aaaaaaaa.a"`, whose last `.` sits at absolute
position 13. -/
def c4Text : List Char := "aaaaaaaaaaaaa.aaaaa".toList

/-- Counterexample to claim C4: for the window at `start = 5` (which ends at 15,
strictly before the end of the text), the last terminal's absolute position
13 is no earlier than `start + 0.7 * chunk_size = 12`, yet the code does not
truncate: it compares the window-relative index 8 against the absolute
threshold 12.  The claimed equivalence is false. -/
theorem specTruncationIff_false_at_second_window :
    min ((5:ℤ) + 10) (c4Text.length : ℤ) < (c4Text.length : ℤ)
    ∧ ¬ specTruncationIff c4Text 10 5 := by
  constructor
  · decide
  · decide

/-- Amended claim C4: the truncation condition the code actually applies
compares the *window-relative* index of the last terminal character strictly
against `start + 0.7 * chunk_size`: for a window ending strictly before the
end of the text, if `10 * lastBreak > 10 * start + 7 * chunk_size` the chunk
is the window truncated just past the last terminal character (whose
existence follows), and otherwise the chunk keeps its raw window end. -/
theorem chunkWindow_truncation_rule (text : List Char) (chunkSize start : ℤ)
    (hsize : 0 < chunkSize) (hstart : 0 ≤ start)
    (hend : min (start + chunkSize) (text.length : ℤ) < (text.length : ℤ)) :
    (10 * lastBreak (chunkWindowRaw text chunkSize start)
        > 10 * start + 7 * chunkSize →
      chunkWindow text chunkSize start
          = (chunkWindowRaw text chunkSize start).take
              ((lastBreak (chunkWindowRaw text chunkSize start)).toNat + 1)
        ∧ ∃ ch, (chunkWindowRaw text chunkSize start).get?
              (lastBreak (chunkWindowRaw text chunkSize start)).toNat = some ch
            ∧ (ch = '.' ∨ ch = '?' ∨ ch = '!'))
    ∧ (¬ (10 * lastBreak (chunkWindowRaw text chunkSize start)
        > 10 * start + 7 * chunkSize) →
      chunkWindow text chunkSize start = chunkWindowRaw text chunkSize start) := by
  constructor
  · intro hcond
    have hlb : 0 ≤ lastBreak (chunkWindowRaw text chunkSize start) := by omega
    constructor
    · unfold chunkWindow
      rw [if_pos hend, if_pos hcond, jsSlice_zero _ _ (by omega)]
      congr 1
      omega
    · exact lastBreak_get _ hlb
  · intro hcond
    unfold chunkWindow
    rw [if_pos hend, if_neg hcond]

theorem chunkWindow_truncation_rule_witness :
    ((0:ℤ) < 10 ∧ (0:ℤ) ≤ 0
      ∧ min ((0:ℤ) + 10) (c4Text.length : ℤ) < (c4Text.length : ℤ))
    ∧ ((10 * lastBreak (chunkWindowRaw c4Text 10 0) > 10 * 0 + 7 * 10 →
        chunkWindow c4Text 10 0
            = (chunkWindowRaw c4Text 10 0).take
                ((lastBreak (chunkWindowRaw c4Text 10 0)).toNat + 1)
          ∧ ∃ ch, (chunkWindowRaw c4Text 10 0).get?
                (lastBreak (chunkWindowRaw c4Text 10 0)).toNat = some ch
              ∧ (ch = '.' ∨ ch = '?' ∨ ch = '!'))
      ∧ (¬ (10 * lastBreak (chunkWindowRaw c4Text 10 0) > 10 * 0 + 7 * 10) →
        chunkWindow c4Text 10 0 = chunkWindowRaw c4Text 10 0)) :=
  ⟨⟨by decide, by decide, by decide⟩,
    chunkWindow_truncation_rule c4Text 10 0 (by decide) (by decide) (by decide)⟩

/-! ### Claims C3, C8, C10: `EmbeddingsManager.getEmbeddings` -/

/-- Claim C3: when the cache does not answer and the active provider's call
fails, `getEmbeddings` does not propagate the error: it returns the result of
a freshly constructed hash-fallback provider on the same text — a vector of
384 components with unit squared norm — and the manager's active provider
is left unchanged. -/
theorem getEmbeddings_falls_back_on_provider_error
    (m : EmbeddingsManager) (text : String) (useCache : Bool) (e : Unit)
    (hmiss : m.cache.lookup (cacheKey text) = none)
    (herr : m.provider text = .error e)
    (hne : text ≠ "") :
    (m.getEmbeddings text useCache).1 = SimpleEmbeddings.generateEmbeddings text
    ∧ (m.getEmbeddings text useCache).2.provider = m.provider
    ∧ ((m.getEmbeddings text useCache).1).length = 384
    ∧ normSq ((m.getEmbeddings text useCache).1) = 1 := by
  have hkey : (if useCache then m.cache.lookup (cacheKey text) else none) = none := by
    cases useCache <;> simp [hmiss]
  unfold EmbeddingsManager.getEmbeddings
  rw [hkey, herr]
  exact ⟨rfl, rfl, length_generateEmbeddings text, normSq_generateEmbeddings text⟩

theorem getEmbeddings_falls_back_on_provider_error_witness :
    ((([] : List (String × List ℝ)).lookup (cacheKey "hi") = none)
      ∧ ((fun _ : String => (Except.error () : Except Unit (List ℝ))) "hi"
          = .error ())
      ∧ "hi" ≠ "")
    ∧ ((EmbeddingsManager.mk (fun _ => .error ()) []).getEmbeddings "hi" true).1
        = SimpleEmbeddings.generateEmbeddings "hi"
    ∧ ((EmbeddingsManager.mk (fun _ => .error ()) []).getEmbeddings "hi" true).2.provider
        = (EmbeddingsManager.mk (fun _ : String => (Except.error () : Except Unit (List ℝ))) []).provider
    ∧ (((EmbeddingsManager.mk (fun _ => .error ()) []).getEmbeddings "hi" true).1).length = 384
    ∧ normSq (((EmbeddingsManager.mk (fun _ => .error ()) []).getEmbeddings "hi" true).1) = 1 :=
  ⟨⟨rfl, rfl, by decide⟩,
    getEmbeddings_falls_back_on_provider_error
      (EmbeddingsManager.mk (fun _ => .error ()) []) "hi" true ()
      rfl rfl (by decide)⟩

/-- Claim C8: after a successful call cached vector `v` under the fingerprint of
`t1`, any later call (with any provider whatsoever in place) on a text `t2`
sharing the first 100 characters and the length of `t1` returns exactly `v`
and leaves the manager unchanged — the provider is never consulted. -/
theorem getEmbeddings_cache_hit_on_fingerprint_collision
    (m : EmbeddingsManager) (t1 t2 : String) (v : List ℝ)
    (p : String → Except Unit (List ℝ))
    (hmiss : m.cache.lookup (cacheKey t1) = none)
    (hok : m.provider t1 = .ok v)
    (hpre2 : t2.take 100 = t1.take 100)
    (hlen : t2.length = t1.length) :
    EmbeddingsManager.getEmbeddings
        (EmbeddingsManager.mk p ((m.getEmbeddings t1 true).2).cache) t2 true
      = (v, EmbeddingsManager.mk p ((m.getEmbeddings t1 true).2).cache) := by
  have hkeyeq : cacheKey t2 = cacheKey t1 := by
    unfold cacheKey
    rw [hpre2, hlen]
  have hstate : ((m.getEmbeddings t1 true).2).cache
      = (cacheKey t1, v) :: m.cache := by
    unfold EmbeddingsManager.getEmbeddings
    rw [if_pos rfl, hmiss, hok]
    rfl
  rw [hstate]
  unfold EmbeddingsManager.getEmbeddings
  rw [if_pos rfl, hkeyeq]
  simp [List.lookup]

theorem getEmbeddings_cache_hit_on_fingerprint_collision_witness :
    ((([] : List (String × List ℝ)).lookup
        (cacheKey (String.mk (List.replicate 100 'a' ++ ['x']))) = none)
      ∧ ((fun _ : String => (Except.ok [(1:ℝ)] : Except Unit (List ℝ)))
            (String.mk (List.replicate 100 'a' ++ ['x'])) = .ok [(1:ℝ)])
      ∧ (String.mk (List.replicate 100 'a' ++ ['y'])).take 100
          = (String.mk (List.replicate 100 'a' ++ ['x'])).take 100
      ∧ (String.mk (List.replicate 100 'a' ++ ['y'])).length
          = (String.mk (List.replicate 100 'a' ++ ['x'])).length)
    ∧ EmbeddingsManager.getEmbeddings
        (EmbeddingsManager.mk (fun _ => .error ())
          (((EmbeddingsManager.mk (fun _ => .ok [(1:ℝ)]) []).getEmbeddings
              (String.mk (List.replicate 100 'a' ++ ['x'])) true).2).cache)
        (String.mk (List.replicate 100 'a' ++ ['y'])) true
      = ([(1:ℝ)], EmbeddingsManager.mk (fun _ => .error ())
          (((EmbeddingsManager.mk (fun _ => .ok [(1:ℝ)]) []).getEmbeddings
              (String.mk (List.replicate 100 'a' ++ ['x'])) true).2).cache) :=
  ⟨⟨rfl, rfl, by decide, by decide⟩,
    getEmbeddings_cache_hit_on_fingerprint_collision
      (EmbeddingsManager.mk (fun _ => .ok [(1:ℝ)]) [])
      (String.mk (List.replicate 100 'a' ++ ['x']))
      (String.mk (List.replicate 100 'a' ++ ['y']))
      [(1:ℝ)] (fun _ => .error ()) rfl rfl (by decide) (by decide)⟩

/-- Claim C10: when the provider call fails, the whole manager state — in
particular the cache — is unchanged: no entry is written under the text's
fingerprint, so a repeat call with the same text misses the cache and behaves
exactly like the first call (the provider is invoked again). -/
theorem getEmbeddings_provider_error_writes_no_cache
    (m : EmbeddingsManager) (text : String) (e : Unit)
    (hmiss : m.cache.lookup (cacheKey text) = none)
    (herr : m.provider text = .error e) :
    (m.getEmbeddings text true).2 = m
    ∧ ((m.getEmbeddings text true).2).cache.lookup (cacheKey text) = none
    ∧ ((m.getEmbeddings text true).2).getEmbeddings text true
        = m.getEmbeddings text true := by
  have hstate : (m.getEmbeddings text true).2 = m := by
    unfold EmbeddingsManager.getEmbeddings
    rw [if_pos rfl, hmiss, herr]
  refine ⟨hstate, ?_, ?_⟩
  · rw [hstate]; exact hmiss
  · rw [hstate]

theorem getEmbeddings_provider_error_writes_no_cache_witness :
    ((([] : List (String × List ℝ)).lookup (cacheKey "xy") = none)
      ∧ ((fun _ : String => (Except.error () : Except Unit (List ℝ))) "xy"
          = .error ()))
    ∧ ((EmbeddingsManager.mk (fun _ => .error ()) []).getEmbeddings "xy" true).2
        = EmbeddingsManager.mk (fun _ : String => (Except.error () : Except Unit (List ℝ))) []
    ∧ (((EmbeddingsManager.mk (fun _ => .error ()) []).getEmbeddings "xy" true).2).cache.lookup
        (cacheKey "xy") = none
    ∧ (((EmbeddingsManager.mk (fun _ => .error ()) []).getEmbeddings "xy" true).2).getEmbeddings
        "xy" true
      = (EmbeddingsManager.mk (fun _ => .error ()) []).getEmbeddings "xy" true :=
  ⟨⟨rfl, rfl⟩,
    getEmbeddings_provider_error_writes_no_cache
      (EmbeddingsManager.mk (fun _ => .error ()) []) "xy" () rfl rfl⟩

/-! ### Claim C2: ranking in `searchChunks` -/

/-- A stored chunk whose `embeddings` field is absent. -/
def vectorlessChunk : DocumentChunk :=
  { id := "c0", documentId := "d0", content := "body", embeddings := none,
    chunkIndex := 0, createdAt := 0 }

/-- Counterexample to claim C2: a stored chunk without an `embeddings` field is
returned by `searchChunks` — it is scored `0` and kept, not excluded before
scoring as the claim asserts. -/
theorem searchChunks_returns_vectorless_chunk :
    searchChunks [] [vectorlessChunk] 5 = [vectorlessChunk]
    ∧ vectorlessChunk.embeddings = none := by
  constructor
  · unfold searchChunks
    simp
  · rfl

/-- Amended claim C2: `searchChunks` returns at most `limit` chunks, ordered
by non-increasing similarity score, where a chunk without a stored vector is
scored `0` (and may therefore appear in the result). -/
theorem searchChunks_at_most_k_and_sorted (queryEmbedding : List ℝ)
    (allChunks : List DocumentChunk) (limit : ℕ) :
    (searchChunks queryEmbedding allChunks limit).length ≤ limit
    ∧ List.Pairwise
        (fun a b => chunkSim queryEmbedding b ≤ chunkSim queryEmbedding a)
        (searchChunks queryEmbedding allChunks limit) := by
  unfold searchChunks
  constructor
  · rw [List.length_map]
    exact List.length_take_le _ _
  · rw [List.pairwise_map]
    have hsorted : List.Pairwise simDesc
        ((allChunks.map
          (fun c => (c, chunkSim queryEmbedding c))).insertionSort simDesc) :=
      List.sorted_insertionSort simDesc _
    have hmem : ∀ p ∈ (allChunks.map
          (fun c => (c, chunkSim queryEmbedding c))).insertionSort simDesc,
        p.2 = chunkSim queryEmbedding p.1 := by
      intro p hp
      rw [List.mem_insertionSort] at hp
      obtain ⟨c, _, rfl⟩ := List.mem_map.mp hp
      rfl
    have himp : List.Pairwise
        (fun a b : DocumentChunk × ℝ =>
          chunkSim queryEmbedding b.1 ≤ chunkSim queryEmbedding a.1)
        ((allChunks.map
          (fun c => (c, chunkSim queryEmbedding c))).insertionSort simDesc) := by
      refine List.Pairwise.imp_of_mem ?_ hsorted
      intro a b ha hb hr
      rw [← hmem a ha, ← hmem b hb]
      exact hr
    exact himp.sublist (List.take_sublist _ _)

/-! ### Claim C9: error handling in `searchChunks` -/

/-- Counterexample to claim C9: a failing embedding step is converted into the
normal result `[]`, not surfaced as an error. -/
theorem searchChunksTry_error_becomes_empty_list :
    searchChunksTry (Except.error ()) (Except.ok []) 5 = Except.ok []
    ∧ searchChunksTry (Except.error ()) (Except.ok []) 5 ≠ Except.error () := by
  constructor
  · rfl
  · intro h
    exact Except.noConfusion h

/-- Amended claim C9: if the embedding step or the chunk-repository read
inside `searchChunks` fails, the `catch` block swallows the failure and the
caller receives the ordinary value `[]` — no error is surfaced. -/
theorem searchChunksTry_swallows_failures
    (embedResult : Except Unit (List ℝ))
    (repoResult : Except Unit (List DocumentChunk)) (limit : ℕ)
    (hfail : (∃ e, embedResult = .error e) ∨ (∃ e, repoResult = .error e)) :
    searchChunksTry embedResult repoResult limit = .ok [] := by
  rcases hfail with ⟨e, he⟩ | ⟨e, he⟩
  · rw [he]
    rfl
  · rw [he]
    cases embedResult <;> rfl

theorem searchChunksTry_swallows_failures_witness :
    ((∃ e, (Except.ok [] : Except Unit (List ℝ)) = .error e)
      ∨ (∃ e, (Except.error () : Except Unit (List DocumentChunk)) = .error e))
    ∧ searchChunksTry (Except.ok []) (Except.error ()) 3 = .ok [] :=
  ⟨Or.inr ⟨(), rfl⟩,
    searchChunksTry_swallows_failures (Except.ok []) (Except.error ()) 3
      (Or.inr ⟨(), rfl⟩)⟩

/-! ### Claim C6: the hash fallback on empty input -/

theorem simpleBuckets_empty : simpleBuckets "" = 1 :: List.replicate 383 0 := by
  unfold simpleBuckets
  have h0 : ("" : String).toList.map Char.toLower = [] := rfl
  rw [h0]
  have h1 : jsSplitWS [] = [[]] := by
    unfold jsSplitWS
    rfl
  simp only [h1, List.foldl_cons, List.foldl_nil]
  decide

theorem magnitudeSq_empty : magnitudeSq "" = 1 := by
  unfold magnitudeSq
  rw [simpleBuckets_empty]
  decide

/-- Counterexample to claim C6: on the empty text the hash-fallback provider does
*not* return the zero vector: JavaScript `"".split(/\s+/)` yields `[""]` and
the empty word hashes to bucket `0`, so the result is the unit basis vector. -/
theorem generateEmbeddings_empty_not_zero :
    SimpleEmbeddings.generateEmbeddings "" ≠ List.replicate 384 (0 : ℝ) := by
  intro h
  have hhead : (SimpleEmbeddings.generateEmbeddings "").head? = some 1 := by
    unfold SimpleEmbeddings.generateEmbeddings
    rw [simpleBuckets_empty, magnitudeSq_empty]
    simp
  rw [h] at hhead
  rw [show (384 : ℕ) = 383 + 1 from rfl, List.replicate_succ] at hhead
  simp at hhead

/-- Amended claim C6: the normalization step of the hash-fallback provider
never divides by a zero magnitude — every text (the empty text included)
yields at least one word and hence a squared magnitude of at least 1, and
every returned vector has unit squared norm; on the empty text the result is
the unit basis vector `e₀`, not the zero vector. -/
theorem generateEmbeddings_no_zero_division (text : String) :
    1 ≤ magnitudeSq text
    ∧ normSq (SimpleEmbeddings.generateEmbeddings text) = 1
    ∧ SimpleEmbeddings.generateEmbeddings ""
        = (1 : ℝ) :: List.replicate 383 0 := by
  refine ⟨magnitudeSq_pos text, normSq_generateEmbeddings text, ?_⟩
  unfold SimpleEmbeddings.generateEmbeddings
  rw [simpleBuckets_empty, magnitudeSq_empty]
  simp

end AdvoChat
